import Mathlib

/-!
# Verification of the go-todoist `item` command and `Time` codec

Shallow embedding of `cmd/todoist/cmd/item.go` and of the `todoist.Time`
wrapper (layout `"Mon 2 Jan 2006 15:04:05 -0700"`, `Parse`, `MarshalJSON`,
`UnmarshalJSON`) together with the CLI command bodies `itemAddCmd`,
`itemUpdateCmd`, `itemDeleteCmd`, `itemMoveCmd`.

Go's `time.Time` is modelled by its broken-down representation in a fixed
zone (`GoTime`): year, month, day, hour, minute, second, nanoseconds and the
zone offset in minutes.  Instant comparison (`time.Time.Equal`, `Before`,
`IsZero`) goes through an absolute-seconds measure computed with the standard
civil-calendar day count, exactly the quantities Go's wall-clock encodes.
Byte strings are modelled as `List Char` (every byte the codec handles is
ASCII).
-/

namespace Todoist

deriving instance DecidableEq for Except

/-- Broken-down representation of a Go `time.Time` value: the wall-clock
fields in the time's own zone, the sub-second nanoseconds, and the zone
offset (minutes east of UTC).  `WF` states the ranges Go's `time.Date`
normalization guarantees and that the 4-digit year layout can represent. -/
structure GoTime where
  year : Nat
  month : Nat
  day : Nat
  hour : Nat
  minute : Nat
  second : Nat
  nsec : Nat
  offMin : Int
deriving DecidableEq, Repr

/-- The zero `time.Time`: January 1, year 1, 00:00:00 UTC. -/
def zeroGoTime : GoTime := ⟨1, 1, 1, 0, 0, 0, 0, 0⟩

/-- Gregorian leap-year rule, as in Go's `isLeap`. -/
def isLeap (y : Nat) : Bool := y % 4 = 0 && (y % 100 != 0 || y % 400 = 0)

/-- Number of days in a month, as in Go's `daysIn`. -/
def daysInMonth (y m : Nat) : Nat :=
  if m = 2 then (if isLeap y then 29 else 28)
  else if m = 4 ∨ m = 6 ∨ m = 9 ∨ m = 11 then 30
  else 31

/-- Days since 1970-01-01 of the civil date (y, m, d); the standard
era-based conversion Go's `absDate`/`daysSinceEpoch` arithmetic computes. -/
def daysFromCivil (y : Int) (m d : Nat) : Int :=
  let y' := y - (if m ≤ 2 then 1 else 0)
  let era := y' / 400
  let yoe := y' - era * 400
  let mp : Int := ((m : Int) + 9) % 12
  let doy := (153 * mp + 2) / 5 + (d : Int) - 1
  let doe := yoe * 365 + yoe / 4 - yoe / 100 + doy
  era * 146097 + doe - 719468

/-- Absolute instant of a `GoTime` in seconds since the Unix epoch
(the value Go's `time.Time.unixSec` holds). -/
def epochSec (t : GoTime) : Int :=
  daysFromCivil t.year t.month t.day * 86400
    + t.hour * 3600 + t.minute * 60 + t.second - t.offMin * 60

/-- `time.Time.IsZero`: the instant is the zero instant. -/
def IsZero (t : GoTime) : Prop :=
  epochSec t = epochSec zeroGoTime ∧ t.nsec = 0

instance (t : GoTime) : Decidable (IsZero t) := by
  unfold IsZero; infer_instance

/-- `todoist.Time.Equal` (via `time.Time.Equal`): same instant, including
the sub-second component. -/
def timeEqual (t u : GoTime) : Prop :=
  epochSec t = epochSec u ∧ t.nsec = u.nsec

instance (t u : GoTime) : Decidable (timeEqual t u) := by
  unfold timeEqual; infer_instance

/-- `time.Time.Before`: strict instant order (seconds, then nanoseconds). -/
def timeBefore (t u : GoTime) : Prop :=
  epochSec t < epochSec u ∨ (epochSec t = epochSec u ∧ t.nsec < u.nsec)

instance (t u : GoTime) : Decidable (timeBefore t u) := by
  unfold timeBefore; infer_instance

/-- Field ranges of a normalized Go time that the fixed layout represents
exactly: calendar-valid date, 4-digit year, in-range clock fields, and a
zone offset below a day (Go zones satisfy all of these). -/
def WF (t : GoTime) : Prop :=
  1 ≤ t.year ∧ t.year ≤ 9999 ∧ 1 ≤ t.month ∧ t.month ≤ 12 ∧
  1 ≤ t.day ∧ t.day ≤ daysInMonth t.year t.month ∧
  t.hour < 24 ∧ t.minute < 60 ∧ t.second < 60 ∧
  t.nsec < 1000000000 ∧ t.offMin.natAbs < 1440

instance (t : GoTime) : Decidable (WF t) := by
  unfold WF; infer_instance

/-! ## Text of the fixed layout `"Mon 2 Jan 2006 15:04:05 -0700"`

`time.Time.Format` on this layout prints: abbreviated weekday name, space,
unpadded day, space, abbreviated month name, space, 4-digit zero-padded
year, space, `hh:mm:ss` with 2-digit zero-padded fields, space, numeric
zone offset `±hhmm`.  `time.Parse` on the same layout reads the fields back
(weekday accepted case-insensitively and otherwise ignored; day and hour
may be 1 or 2 digits; calendar and clock ranges validated). -/

/-- Decimal digit character, `n < 10`. -/
def digitChar (n : Nat) : Char := Char.ofNat (48 + n)

/-- Numeric value of a digit character. -/
def digVal (c : Char) : Nat := c.toNat - 48

/-- 2-digit zero-padded decimal (for values below 100). -/
def pad2 (n : Nat) : List Char := [digitChar (n / 10), digitChar (n % 10)]

/-- 4-digit zero-padded decimal (for values below 10000). -/
def pad4 (n : Nat) : List Char :=
  [digitChar (n / 1000), digitChar (n / 100 % 10), digitChar (n / 10 % 10), digitChar (n % 10)]

/-- Unpadded day-of-month (1 or 2 digits, for values below 100). -/
def dayStr (d : Nat) : List Char :=
  if d < 10 then [digitChar d] else [digitChar (d / 10), digitChar (d % 10)]

/-- Join fields with a separator character. -/
def joinSep (c : Char) : List (List Char) → List Char
  | [] => []
  | [f] => f
  | f :: g :: fs => f ++ c :: joinSep c (g :: fs)

/-- Split on a separator character (Go `strings.Split` semantics). -/
def splitOnChar (c : Char) : List Char → List (List Char)
  | [] => [[]]
  | a :: as =>
    match splitOnChar c as with
    | [] => [[]]
    | f :: fs => if a = c then [] :: f :: fs else (a :: f) :: fs

/-- Go's `shortDayNames`, Sunday first. -/
def dayNames : List (List Char) :=
  ["Sun".toList, "Mon".toList, "Tue".toList, "Wed".toList,
   "Thu".toList, "Fri".toList, "Sat".toList]

/-- Go's `shortMonthNames`, January first. -/
def monthNames : List (List Char) :=
  ["Jan".toList, "Feb".toList, "Mar".toList, "Apr".toList, "May".toList, "Jun".toList,
   "Jul".toList, "Aug".toList, "Sep".toList, "Oct".toList, "Nov".toList, "Dec".toList]

/-- Abbreviated weekday name of the date (1970-01-01 was a Thursday). -/
def weekdayName (t : GoTime) : List Char :=
  match ((daysFromCivil t.year t.month t.day + 4) % 7).toNat with
  | 0 => "Sun".toList
  | 1 => "Mon".toList
  | 2 => "Tue".toList
  | 3 => "Wed".toList
  | 4 => "Thu".toList
  | 5 => "Fri".toList
  | _ => "Sat".toList

/-- Abbreviated month name (months 1–12). -/
def monthName (m : Nat) : List Char :=
  match m with
  | 1 => "Jan".toList
  | 2 => "Feb".toList
  | 3 => "Mar".toList
  | 4 => "Apr".toList
  | 5 => "May".toList
  | 6 => "Jun".toList
  | 7 => "Jul".toList
  | 8 => "Aug".toList
  | 9 => "Sep".toList
  | 10 => "Oct".toList
  | 11 => "Nov".toList
  | _ => "Dec".toList

/-- Numeric zone offset `±hhmm` (offset in minutes, below a day). -/
def offStr (omin : Int) : List Char :=
  (if omin < 0 then '-' else '+') :: (pad2 (omin.natAbs / 60) ++ pad2 (omin.natAbs % 60))

/-- `time.Time.Format` on the fixed layout. -/
def format (t : GoTime) : List Char :=
  joinSep ' '
    [weekdayName t, dayStr t.day, monthName t.month, pad4 t.year,
     joinSep ':' [pad2 t.hour, pad2 t.minute, pad2 t.second], offStr t.offMin]

/-! ## Parsing under the fixed layout -/

/-- Decimal value of a digit list. -/
def digitsVal (s : List Char) : Nat := s.foldl (fun a c => 10 * a + digVal c) 0

/-- All characters are decimal digits. -/
def allDigits (s : List Char) : Bool := s.all Char.isDigit

/-- Fixed 2-digit number field. -/
def parseNat2 (s : List Char) : Except String Nat :=
  if s.length = 2 ∧ allDigits s then .ok (digitsVal s) else .error "bad number"

/-- Fixed 4-digit number field (the year). -/
def parseNat4 (s : List Char) : Except String Nat :=
  if s.length = 4 ∧ allDigits s then .ok (digitsVal s) else .error "bad number"

/-- 1- or 2-digit number field (day, hour). -/
def parseNat1or2 (s : List Char) : Except String Nat :=
  if (s.length = 1 ∨ s.length = 2) ∧ allDigits s then .ok (digitsVal s) else .error "bad number"

/-- ASCII case-insensitive equality, as Go's layout-name `match`. -/
def eqCI (a b : List Char) : Bool := a.map Char.toLower == b.map Char.toLower

/-- Weekday-name field: must be one of the short names; the value is
ignored (Go does not check it against the date). -/
def parseWeekday (s : List Char) : Except String Unit :=
  if dayNames.any (fun n => eqCI n s) then .ok () else .error "bad weekday"

/-- Month-name field, yielding the month number 1–12. -/
def parseMonth (s : List Char) : Except String Nat :=
  match monthNames.findIdx? (fun n => eqCI n s) with
  | some i => .ok (i + 1)
  | none => .error "bad month"

/-- Numeric zone field `±hhmm` (a sign and exactly four digits), yielding
the offset in minutes. -/
def parseOffset (s : List Char) : Except String Int :=
  match s with
  | [sgn, a, b, c, d] =>
    if (sgn = '+' ∨ sgn = '-') ∧ allDigits [a, b, c, d] then
      let hh := digitsVal [a, b]
      let mm := digitsVal [c, d]
      .ok ((if sgn = '-' then -1 else 1) * ((hh : Int) * 60 + mm))
    else .error "bad zone"
  | _ => .error "bad zone"

/-- The `hh:mm:ss` clock field: split on `:` into exactly three number
fields (hour may be 1 or 2 digits, minute and second exactly 2). -/
def parseClock (hms : List Char) : Except String (Nat × Nat × Nat) :=
  match splitOnChar ':' hms with
  | [hh, mm, ss] =>
    match parseNat1or2 hh, parseNat2 mm, parseNat2 ss with
    | .ok h, .ok mi, .ok sec => .ok (h, mi, sec)
    | _, _, _ => .error "cannot parse time"
  | _ => .error "cannot parse time"

/-- The six space-separated fields of the layout, parsed and
range-validated exactly as Go's `time.Parse` does. -/
def parseFields : List (List Char) → Except String GoTime
  | [wd, dd, mon, yy, hms, off] =>
    match parseWeekday wd, parseNat1or2 dd, parseMonth mon, parseNat4 yy with
    | .ok _, .ok d, .ok m, .ok y =>
      match parseClock hms, parseOffset off with
      | .ok (h, mi, sec), .ok omin =>
        if 1 ≤ d ∧ d ≤ daysInMonth y m ∧ h < 24 ∧ mi < 60 ∧ sec < 60 then
          .ok ⟨y, m, d, h, mi, sec, 0, omin⟩
        else .error "value out of range"
      | _, _ => .error "cannot parse time"
    | _, _, _, _ => .error "cannot parse time"
  | _ => .error "cannot parse time"

/-- `todoist.Parse` / `time.Parse` on the fixed layout.  A successfully
parsed value has no sub-second component (the layout carries none). -/
def Parse (s : List Char) : Except String GoTime :=
  parseFields (splitOnChar ' ' s)

/-! ## JSON encoding of `todoist.Time` -/

/-- `strconv.Quote` restricted to the characters the fixed layout emits
(letters, digits, space, colon, sign): none of them is escaped, so quoting
is wrapping in double quotes. -/
def goQuote (s : List Char) : List Char := '"' :: (s ++ ['"'])

/-- Model of `strconv.Unquote` on the double-quoted literals this package
exchanges: a string wrapped in double quotes whose body contains no quote
and no backslash unquotes to its body; anything else — in particular any
bare token such as `null`, a number, or a misspelled word — fails.  (Go's
`Unquote` additionally accepts escape sequences, backquoted and character
literals; no value in this codec produces those, and inputs using them are
treated as failures here.) -/
def goUnquote (s : List Char) : Except String (List Char) :=
  if 2 ≤ s.length ∧ s.head? = some '"' ∧ s.getLast? = some '"' ∧
      ∀ c ∈ (s.drop 1).dropLast, c ≠ '"' ∧ c ≠ '\\' then
    .ok ((s.drop 1).dropLast)
  else .error "invalid syntax"

/-- `todoist.Time.MarshalJSON`: the zero time serializes to the literal
`null` token, any other time to the quoted fixed-layout string. -/
def MarshalJSON (t : GoTime) : List Char :=
  if IsZero t then "null".toList else goQuote (format t)

/-- `todoist.Time.UnmarshalJSON`: result error (`none` = nil) and the value
stored in the receiver.  When unquoting fails the receiver is set to the
zero time and nil is returned; when unquoting succeeds the receiver is
assigned `Parse`'s result (the zero time on parse failure) and the parse
error, if any, is returned. -/
def UnmarshalJSON (b : List Char) : Option String × GoTime :=
  match goUnquote b with
  | .error _ => (none, zeroGoTime)
  | .ok s =>
    match Parse s with
    | .error e => (some e, zeroGoTime)
    | .ok t => (none, t)

example : let t : GoTime := ⟨2020, 1, 6, 12, 30, 45, 0, 0⟩
    format t = "Mon 6 Jan 2020 12:30:45 +0000".toList := by decide
example : Parse ("Mon 6 Jan 2020 12:30:45 +0000".toList) =
    .ok ⟨2020, 1, 6, 12, 30, 45, 0, 0⟩ := by rfl
example : Parse ("Tue 31 Dec 2019 23:59:59 -0930".toList) =
    .ok ⟨2019, 12, 31, 23, 59, 59, 0, -570⟩ := by rfl
example : (Parse ("Mon 30 Feb 2020 12:30:45 +0000".toList)).isOk = false := by decide
example : UnmarshalJSON ("null".toList) = (none, zeroGoTime) := by decide
example : MarshalJSON zeroGoTime = "null".toList := by decide
example : UnmarshalJSON (MarshalJSON ⟨2020, 1, 6, 12, 30, 45, 0, 120⟩) =
    (none, ⟨2020, 1, 6, 12, 30, 45, 0, 120⟩) := by decide

/-! ## Format–parse inversion -/

theorem digit_digVal : ∀ k < 10, digVal (digitChar k) = k := by decide

theorem digit_isDigit : ∀ k < 10, Char.isDigit (digitChar k) = true := by decide

theorem digit_ne_space : ∀ k < 10, digitChar k ≠ ' ' := by decide

theorem digit_ne_colon : ∀ k < 10, digitChar k ≠ ':' := by decide

theorem digit_good : ∀ k < 10, digitChar k ≠ '"' ∧ digitChar k ≠ '\\' := by decide

theorem daysInMonth_le (y m : Nat) : daysInMonth y m ≤ 31 := by
  unfold daysInMonth
  split
  · split <;> omega
  · split <;> omega

theorem splitOnChar_cons (c a : Char) (as : List Char) :
    splitOnChar c (a :: as) =
      match splitOnChar c as with
      | [] => [[]]
      | f :: fs => if a = c then [] :: f :: fs else (a :: f) :: fs := rfl

theorem splitOnChar_ne_nil (c : Char) (l : List Char) : splitOnChar c l ≠ [] := by
  cases l with
  | nil => simp [splitOnChar]
  | cons a as =>
    rw [splitOnChar_cons]
    split
    · simp
    · split <;> simp

theorem splitOnChar_of_not_mem {c : Char} {f : List Char} (h : c ∉ f) :
    splitOnChar c f = [f] := by
  induction f with
  | nil => rfl
  | cons a as ih =>
    have ha : ¬(a = c) := fun e => h (e ▸ List.mem_cons_self a as)
    have ht := ih (fun hm => h (List.mem_cons_of_mem a hm))
    simp [splitOnChar, ht, ha]

theorem splitOnChar_append {c : Char} {f rest : List Char} (h : c ∉ f) :
    splitOnChar c (f ++ c :: rest) = f :: splitOnChar c rest := by
  induction f with
  | nil =>
    rcases hs : splitOnChar c rest with _ | ⟨g, gs⟩
    · exact absurd hs (splitOnChar_ne_nil c rest)
    · simp [splitOnChar, hs]
  | cons a as ih =>
    have ha : ¬(a = c) := fun e => h (e ▸ List.mem_cons_self a as)
    have ht := ih (fun hm => h (List.mem_cons_of_mem a hm))
    rw [List.cons_append, splitOnChar_cons, ht]
    simp [ha]

theorem splitOnChar_joinSep {c : Char} (fs : List (List Char)) (hne : fs ≠ [])
    (h : ∀ f ∈ fs, c ∉ f) : splitOnChar c (joinSep c fs) = fs := by
  induction fs with
  | nil => exact absurd rfl hne
  | cons f gs ih =>
    cases gs with
    | nil => exact splitOnChar_of_not_mem (h f (by simp))
    | cons g fs' =>
      rw [joinSep, splitOnChar_append (h f (by simp)),
        ih (by simp) (fun x hx => h x (List.mem_cons_of_mem f hx))]

theorem parseNat2_pad2 {n : Nat} (h : n < 100) : parseNat2 (pad2 n) = .ok n := by
  have h1 : n / 10 < 10 := by omega
  have h2 : n % 10 < 10 := by omega
  simp [parseNat2, pad2, allDigits, digitsVal, digit_isDigit _ h1, digit_isDigit _ h2,
    digit_digVal _ h1, digit_digVal _ h2]
  omega

theorem parseNat4_pad4 {n : Nat} (h : n < 10000) : parseNat4 (pad4 n) = .ok n := by
  have h1 : n / 1000 < 10 := by omega
  have h2 : n / 100 % 10 < 10 := by omega
  have h3 : n / 10 % 10 < 10 := by omega
  have h4 : n % 10 < 10 := by omega
  simp [parseNat4, pad4, allDigits, digitsVal, digit_isDigit _ h1, digit_isDigit _ h2,
    digit_isDigit _ h3, digit_isDigit _ h4, digit_digVal _ h1, digit_digVal _ h2,
    digit_digVal _ h3, digit_digVal _ h4]
  omega

theorem parseNat1or2_dayStr {d : Nat} (h : d < 100) : parseNat1or2 (dayStr d) = .ok d := by
  unfold dayStr
  by_cases hd : d < 10
  · simp [hd, parseNat1or2, allDigits, digitsVal, digit_isDigit _ hd, digit_digVal _ hd]
  · have h1 : d / 10 < 10 := by omega
    have h2 : d % 10 < 10 := by omega
    simp [hd, parseNat1or2, allDigits, digitsVal, digit_isDigit _ h1, digit_isDigit _ h2,
      digit_digVal _ h1, digit_digVal _ h2]
    omega

theorem parseNat1or2_pad2 {n : Nat} (h : n < 100) : parseNat1or2 (pad2 n) = .ok n := by
  have h1 : n / 10 < 10 := by omega
  have h2 : n % 10 < 10 := by omega
  simp [parseNat1or2, pad2, allDigits, digitsVal, digit_isDigit _ h1, digit_isDigit _ h2,
    digit_digVal _ h1, digit_digVal _ h2]
  omega

theorem parseWeekday_weekdayName (t : GoTime) : parseWeekday (weekdayName t) = .ok () := by
  unfold weekdayName
  split <;> rfl

theorem parseMonth_monthName {m : Nat} (h1 : 1 ≤ m) (h2 : m ≤ 12) :
    parseMonth (monthName m) = .ok m := by
  interval_cases m <;> rfl

theorem mem_joinSep {x c : Char} : ∀ {fs : List (List Char)}, x ∈ joinSep c fs →
    x = c ∨ ∃ f ∈ fs, x ∈ f := by
  intro fs
  induction fs with
  | nil => intro h; simp [joinSep] at h
  | cons f gs ih =>
    cases gs with
    | nil => intro h; right; exact ⟨f, by simp, by simpa [joinSep] using h⟩
    | cons g fs' =>
      intro h
      rw [joinSep] at h
      rcases List.mem_append.mp h with h1 | h1
      · right; exact ⟨f, by simp, h1⟩
      · rcases List.mem_cons.mp h1 with h2 | h2
        · left; exact h2
        · rcases ih h2 with h3 | ⟨f', hf', hx⟩
          · left; exact h3
          · right; exact ⟨f', by simp [hf'], hx⟩

theorem mem_pad2 {x : Char} {n : Nat} (h : n < 100) (hm : x ∈ pad2 n) :
    ∃ k, k < 10 ∧ x = digitChar k := by
  rcases List.mem_cons.mp hm with he | hm2
  · exact ⟨n / 10, by omega, he⟩
  · rcases List.mem_cons.mp hm2 with he | hm3
    · exact ⟨n % 10, by omega, he⟩
    · simp at hm3

theorem mem_pad4 {x : Char} {n : Nat} (h : n < 10000) (hm : x ∈ pad4 n) :
    ∃ k, k < 10 ∧ x = digitChar k := by
  simp only [pad4, List.mem_cons, List.not_mem_nil, or_false] at hm
  rcases hm with he | he | he | he
  · exact ⟨n / 1000, by omega, he⟩
  · exact ⟨n / 100 % 10, by omega, he⟩
  · exact ⟨n / 10 % 10, by omega, he⟩
  · exact ⟨n % 10, by omega, he⟩

theorem mem_dayStr {x : Char} {d : Nat} (h : d < 100) (hm : x ∈ dayStr d) :
    ∃ k, k < 10 ∧ x = digitChar k := by
  unfold dayStr at hm
  by_cases hd : d < 10
  · rw [if_pos hd] at hm
    rcases List.mem_cons.mp hm with he | hm2
    · exact ⟨d, hd, he⟩
    · simp at hm2
  · rw [if_neg hd] at hm
    rcases List.mem_cons.mp hm with he | hm2
    · exact ⟨d / 10, by omega, he⟩
    · rcases List.mem_cons.mp hm2 with he | hm3
      · exact ⟨d % 10, by omega, he⟩
      · simp at hm3

theorem mem_offStr {x : Char} {o : Int} (h : o.natAbs < 1440) (hm : x ∈ offStr o) :
    x = '-' ∨ x = '+' ∨ ∃ k, k < 10 ∧ x = digitChar k := by
  unfold offStr at hm
  rcases List.mem_cons.mp hm with he | hm2
  · split at he
    · exact Or.inl he
    · exact Or.inr (Or.inl he)
  · rcases List.mem_append.mp hm2 with hm3 | hm3
    · exact Or.inr (Or.inr (mem_pad2 (by omega) hm3))
    · exact Or.inr (Or.inr (mem_pad2 (by omega) hm3))

theorem weekdayName_mem_dayNames (t : GoTime) : weekdayName t ∈ dayNames := by
  unfold weekdayName
  split <;> simp [dayNames]

theorem monthName_mem_monthNames (m : Nat) : monthName m ∈ monthNames := by
  unfold monthName
  split <;> simp [monthNames]

theorem space_not_mem_weekdayName (t : GoTime) : ' ' ∉ weekdayName t := by
  have := weekdayName_mem_dayNames t
  revert this
  have : ∀ n ∈ dayNames, ' ' ∉ n := by decide
  intro hmem
  exact this _ hmem

theorem space_not_mem_monthName (m : Nat) : ' ' ∉ monthName m := by
  have h : ∀ n ∈ monthNames, ' ' ∉ n := by decide
  exact h _ (monthName_mem_monthNames m)

theorem space_not_mem_clockStr {a b c : Nat} (ha : a < 100) (hb : b < 100) (hc : c < 100) :
    ' ' ∉ joinSep ':' [pad2 a, pad2 b, pad2 c] := by
  intro hm
  rcases mem_joinSep hm with he | ⟨f, hf, hx⟩
  · exact absurd he (by decide)
  · simp only [List.mem_cons, List.not_mem_nil, or_false] at hf
    rcases hf with rfl | rfl | rfl
    · obtain ⟨k, hk, he⟩ := mem_pad2 ha hx
      exact digit_ne_space k hk he.symm
    · obtain ⟨k, hk, he⟩ := mem_pad2 hb hx
      exact digit_ne_space k hk he.symm
    · obtain ⟨k, hk, he⟩ := mem_pad2 hc hx
      exact digit_ne_space k hk he.symm

theorem parseOffset_offStr {omin : Int} (h : omin.natAbs < 1440) :
    parseOffset (offStr omin) = .ok omin := by
  have h1 : omin.natAbs / 60 / 10 < 10 := by omega
  have h2 : omin.natAbs / 60 % 10 < 10 := by omega
  have h3 : omin.natAbs % 60 / 10 < 10 := by omega
  have h4 : omin.natAbs % 60 % 10 < 10 := by omega
  rcases Int.lt_or_le omin 0 with hneg | hpos
  · simp +decide only [offStr, if_pos hneg, pad2, List.cons_append, List.nil_append,
      parseOffset, allDigits, List.all_cons, List.all_nil, digit_isDigit _ h1,
      digit_isDigit _ h2, digit_isDigit _ h3, digit_isDigit _ h4, digitsVal, List.foldl,
      digit_digVal _ h1, digit_digVal _ h2, digit_digVal _ h3, digit_digVal _ h4,
      if_true, Except.ok.injEq]
    omega
  · have hng : ¬(omin < 0) := by omega
    simp +decide only [offStr, if_neg hng, pad2, List.cons_append, List.nil_append,
      parseOffset, allDigits, List.all_cons, List.all_nil, digit_isDigit _ h1,
      digit_isDigit _ h2, digit_isDigit _ h3, digit_isDigit _ h4, digitsVal, List.foldl,
      digit_digVal _ h1, digit_digVal _ h2, digit_digVal _ h3, digit_digVal _ h4,
      if_true, if_false, Except.ok.injEq]
    omega

theorem daysInMonth_le31 {y m : Nat} : daysInMonth y m ≤ 31 := daysInMonth_le y m

theorem Parse_format {t : GoTime} (h : WF t) : Parse (format t) = .ok { t with nsec := 0 } := by
  obtain ⟨hy1, hy2, hm1, hm2, hd1, hd2, hhr, hmin, hsec, _hn, hoff⟩ := h
  have hd100 : t.day < 100 := by
    have := daysInMonth_le t.year t.month
    omega
  have hsplitClock : splitOnChar ':' (joinSep ':' [pad2 t.hour, pad2 t.minute, pad2 t.second]) =
      [pad2 t.hour, pad2 t.minute, pad2 t.second] := by
    apply splitOnChar_joinSep _ (by simp)
    intro f hf
    simp only [List.mem_cons, List.not_mem_nil, or_false] at hf
    rcases hf with rfl | rfl | rfl
    · intro hm
      obtain ⟨k, hk, he⟩ := mem_pad2 (by omega) hm
      exact digit_ne_colon k hk he.symm
    · intro hm
      obtain ⟨k, hk, he⟩ := mem_pad2 (by omega) hm
      exact digit_ne_colon k hk he.symm
    · intro hm
      obtain ⟨k, hk, he⟩ := mem_pad2 (by omega) hm
      exact digit_ne_colon k hk he.symm
  have hsplit : splitOnChar ' ' (format t) =
      [weekdayName t, dayStr t.day, monthName t.month, pad4 t.year,
       joinSep ':' [pad2 t.hour, pad2 t.minute, pad2 t.second], offStr t.offMin] := by
    apply splitOnChar_joinSep _ (by simp)
    intro f hf
    simp only [List.mem_cons, List.not_mem_nil, or_false] at hf
    rcases hf with rfl | rfl | rfl | rfl | rfl | rfl
    · exact space_not_mem_weekdayName t
    · intro hm
      obtain ⟨k, hk, he⟩ := mem_dayStr hd100 hm
      exact digit_ne_space k hk he.symm
    · exact space_not_mem_monthName t.month
    · intro hm
      obtain ⟨k, hk, he⟩ := mem_pad4 (by omega) hm
      exact digit_ne_space k hk he.symm
    · exact space_not_mem_clockStr (by omega) (by omega) (by omega)
    · intro hm
      rcases mem_offStr hoff hm with he | he | ⟨k, hk, he⟩
      · exact absurd he (by decide)
      · exact absurd he (by decide)
      · exact digit_ne_space k hk he.symm
  unfold Parse
  rw [hsplit]
  simp only [parseFields, parseWeekday_weekdayName, parseNat1or2_dayStr hd100,
    parseMonth_monthName hm1 hm2, parseNat4_pad4 (by omega : t.year < 10000),
    parseClock, hsplitClock, parseNat1or2_pad2 (by omega : t.hour < 100),
    parseNat2_pad2 (by omega : t.minute < 100), parseNat2_pad2 (by omega : t.second < 100),
    parseOffset_offStr hoff]
  rw [if_pos ⟨hd1, hd2, hhr, hmin, hsec⟩]

theorem format_goodChars {t : GoTime} (h : WF t) :
    ∀ x ∈ format t, x ≠ '"' ∧ x ≠ '\\' := by
  obtain ⟨hy1, hy2, hm1, hm2, hd1, hd2, hhr, hmin, hsec, _hn, hoff⟩ := h
  have hd100 : t.day < 100 := by
    have := daysInMonth_le t.year t.month
    omega
  have digitGood : ∀ k, k < 10 → ∀ x, x = digitChar k → x ≠ '"' ∧ x ≠ '\\' := by
    intro k hk x he
    subst he
    exact digit_good k hk
  intro x hx
  unfold format at hx
  rcases mem_joinSep hx with he | ⟨f, hf, hxf⟩
  · subst he; exact ⟨by decide, by decide⟩
  · simp only [List.mem_cons, List.not_mem_nil, or_false] at hf
    rcases hf with rfl | rfl | rfl | rfl | rfl | rfl
    · have hnames : ∀ n ∈ dayNames, ∀ y ∈ n, y ≠ '"' ∧ y ≠ '\\' := by decide
      exact hnames _ (weekdayName_mem_dayNames t) x hxf
    · obtain ⟨k, hk, he⟩ := mem_dayStr hd100 hxf
      exact digitGood k hk x he
    · have hnames : ∀ n ∈ monthNames, ∀ y ∈ n, y ≠ '"' ∧ y ≠ '\\' := by decide
      exact hnames _ (monthName_mem_monthNames t.month) x hxf
    · obtain ⟨k, hk, he⟩ := mem_pad4 (by omega) hxf
      exact digitGood k hk x he
    · rcases mem_joinSep hxf with he | ⟨g, hg, hxg⟩
      · subst he; exact ⟨by decide, by decide⟩
      · simp only [List.mem_cons, List.not_mem_nil, or_false] at hg
        rcases hg with rfl | rfl | rfl
        · obtain ⟨k, hk, he⟩ := mem_pad2 (by omega) hxg
          exact digitGood k hk x he
        · obtain ⟨k, hk, he⟩ := mem_pad2 (by omega) hxg
          exact digitGood k hk x he
        · obtain ⟨k, hk, he⟩ := mem_pad2 (by omega) hxg
          exact digitGood k hk x he
    · rcases mem_offStr hoff hxf with he | he | ⟨k, hk, he⟩
      · subst he; exact ⟨by decide, by decide⟩
      · subst he; exact ⟨by decide, by decide⟩
      · exact digitGood k hk x he

theorem goUnquote_goQuote {s : List Char} (h : ∀ x ∈ s, x ≠ '"' ∧ x ≠ '\\') :
    goUnquote (goQuote s) = .ok s := by
  unfold goQuote goUnquote
  rw [if_pos]
  · simp [List.dropLast_concat]
  · refine ⟨by simp, rfl, ?_, ?_⟩
    · rw [← List.cons_append]
      exact List.getLast?_concat _
    · intro c hc
      simp only [List.drop_succ_cons, List.drop_zero, List.dropLast_concat] at hc
      exact h c hc

/-! ## Claims about the `Time` codec -/

/-- Does the input unquote to a string accepted by the fixed-layout parse? -/
def unquoteParses (b : List Char) : Bool :=
  match goUnquote b with
  | .ok s => (Parse s).isOk
  | .error _ => false

/-- C1 (counterexample): the round-trip claim fails as stated: for a
non-zero `Time` carrying a sub-second component (here 1ns), unmarshalling
the marshalled bytes yields a time that is not equal (as an instant,
nanoseconds included) to the original — the layout carries no fractional
seconds, so they are truncated. -/
theorem c1_roundtrip_counterexample :
    ¬ IsZero (⟨2020, 1, 6, 12, 30, 45, 1, 0⟩ : GoTime) ∧
    WF (⟨2020, 1, 6, 12, 30, 45, 1, 0⟩ : GoTime) ∧
    ¬ timeEqual (UnmarshalJSON (MarshalJSON ⟨2020, 1, 6, 12, 30, 45, 1, 0⟩)).2
        ⟨2020, 1, 6, 12, 30, 45, 1, 0⟩ := by decide

/-- C1 (amended): for every well-formed non-zero `Time` with no sub-second
component, unmarshalling the marshalled bytes succeeds and yields an equal
instant; marshalling the zero `Time` yields the literal `null` token; and
unmarshalling the `null` token yields the zero `Time`. -/
theorem c1_time_roundtrip :
    (∀ t : GoTime, WF t → ¬ IsZero t → t.nsec = 0 →
      (UnmarshalJSON (MarshalJSON t)).1 = none ∧
      timeEqual (UnmarshalJSON (MarshalJSON t)).2 t) ∧
    MarshalJSON zeroGoTime = "null".toList ∧
    UnmarshalJSON ("null".toList) = (none, zeroGoTime) := by
  refine ⟨?_, by decide, by decide⟩
  intro t hwf hnz hn
  have hfmt : goUnquote (goQuote (format t)) = .ok (format t) :=
    goUnquote_goQuote (format_goodChars hwf)
  have hm : MarshalJSON t = goQuote (format t) := by
    unfold MarshalJSON
    rw [if_neg hnz]
  have hp := Parse_format hwf
  have ht : ({t with nsec := 0} : GoTime) = t := by
    cases t
    simp_all
  rw [ht] at hp
  simp only [UnmarshalJSON, hm, hfmt, hp]
  simp [timeEqual]

/-- C1 (witness): the amended round-trip at a concrete non-zero time. -/
theorem c1_time_roundtrip_witness :
    WF (⟨2020, 1, 6, 12, 30, 45, 0, 120⟩ : GoTime) ∧
    ¬ IsZero (⟨2020, 1, 6, 12, 30, 45, 0, 120⟩ : GoTime) ∧
    ((UnmarshalJSON (MarshalJSON ⟨2020, 1, 6, 12, 30, 45, 0, 120⟩)).1 = none ∧
      timeEqual (UnmarshalJSON (MarshalJSON ⟨2020, 1, 6, 12, 30, 45, 0, 120⟩)).2
        ⟨2020, 1, 6, 12, 30, 45, 0, 120⟩) :=
  ⟨by decide, by decide, c1_time_roundtrip.1 _ (by decide) (by decide) rfl⟩

/-- C5: `MarshalJSON` yields the literal `null` token exactly for the zero
`Time`; every other (well-formed) value serializes to the quoted
fixed-layout string, which parses back under the canonical pattern — a
zero time is never rendered as a zero-date string. -/
theorem c5_marshal_null_iff_zero :
    ∀ t : GoTime, WF t →
      (MarshalJSON t = "null".toList ↔ IsZero t) ∧
      (¬ IsZero t → MarshalJSON t = goQuote (format t) ∧ (Parse (format t)).isOk = true) := by
  intro t hwf
  have hq : ∀ u : GoTime, ¬ IsZero u → MarshalJSON u = goQuote (format u) := by
    intro u hnz
    unfold MarshalJSON
    rw [if_neg hnz]
  constructor
  · constructor
    · intro he
      by_contra hnz
      rw [hq t hnz] at he
      have h2 : ('"' : Char) :: (format t ++ ['"']) = 'n' :: ['u', 'l', 'l'] := he
      exact absurd (List.cons_eq_cons.mp h2).1 (by decide)
    · intro hz
      unfold MarshalJSON
      rw [if_pos hz]
  · intro hnz
    refine ⟨hq t hnz, ?_⟩
    rw [Parse_format hwf]
    rfl

/-- C5 (witness): the dichotomy at a concrete non-zero time. -/
theorem c5_marshal_null_iff_zero_witness :
    WF (⟨1999, 12, 31, 23, 59, 59, 0, -300⟩ : GoTime) ∧
    ((MarshalJSON (⟨1999, 12, 31, 23, 59, 59, 0, -300⟩ : GoTime) = "null".toList ↔
        IsZero (⟨1999, 12, 31, 23, 59, 59, 0, -300⟩ : GoTime)) ∧
      (¬ IsZero (⟨1999, 12, 31, 23, 59, 59, 0, -300⟩ : GoTime) →
        MarshalJSON (⟨1999, 12, 31, 23, 59, 59, 0, -300⟩ : GoTime) =
          goQuote (format ⟨1999, 12, 31, 23, 59, 59, 0, -300⟩) ∧
        (Parse (format (⟨1999, 12, 31, 23, 59, 59, 0, -300⟩ : GoTime))).isOk = true)) :=
  ⟨by decide, c5_marshal_null_iff_zero _ (by decide)⟩

/-- C4 (counterexample): the claim "UnmarshalJSON returns nil only when the
input is the `null` token or a string parsing under the canonical pattern"
is false: the bare token `123` is neither, yet `UnmarshalJSON` returns nil
and silently stores the zero time. -/
theorem c4_counterexample :
    (UnmarshalJSON ("123".toList)).1 = none ∧
    "123".toList ≠ "null".toList ∧
    unquoteParses ("123".toList) = false ∧
    (UnmarshalJSON ("123".toList)).2 = zeroGoTime := by decide

/-- C4 (amended): `UnmarshalJSON` returns a non-nil error exactly when the
input unquotes to a string that the canonical pattern rejects; every input
that fails unquoting — the `null` token, but equally any malformed bare
token — is silently mapped to the zero time with a nil error. -/
theorem c4_unmarshal_error_conditions :
    ∀ b : List Char,
      ((UnmarshalJSON b).1 = none ↔
        ((goUnquote b).isOk = false ∨ unquoteParses b = true)) ∧
      ((goUnquote b).isOk = false → UnmarshalJSON b = (none, zeroGoTime)) := by
  intro b
  unfold UnmarshalJSON unquoteParses
  rcases hb : goUnquote b with e | s
  · simp [Except.isOk, Except.toBool]
  · rcases hp : Parse s with e2 | t <;> simp [Except.isOk, Except.toBool, hp]

/-- C4 (witness): the amended statement at a concrete malformed input. -/
theorem c4_unmarshal_error_conditions_witness :
    ((UnmarshalJSON ("abc".toList)).1 = none ↔
      ((goUnquote ("abc".toList)).isOk = false ∨ unquoteParses ("abc".toList) = true)) ∧
    ((goUnquote ("abc".toList)).isOk = false →
      UnmarshalJSON ("abc".toList) = (none, zeroGoTime)) :=
  c4_unmarshal_error_conditions ("abc".toList)

/-- C8: every input that fails to unquote as a quoted string literal — not
only the `null` token but any bare token — makes `UnmarshalJSON` set the
receiver to the zero time and return nil. -/
theorem c8_unquote_failure_silent_zero :
    ∀ b : List Char, (goUnquote b).isOk = false →
      UnmarshalJSON b = (none, zeroGoTime) := by
  intro b hb
  unfold UnmarshalJSON
  rcases h : goUnquote b with e | s
  · rfl
  · rw [h] at hb
    exact absurd hb (by simp [Except.isOk, Except.toBool])

/-- C8 (witness): a misspelled bare token is silently the zero time. -/
theorem c8_unquote_failure_silent_zero_witness :
    (goUnquote ("nul".toList)).isOk = false ∧
    UnmarshalJSON ("nul".toList) = (none, zeroGoTime) :=
  ⟨by decide, c8_unquote_failure_silent_zero _ (by decide)⟩

/-! ## The `item` CLI commands

The bodies of `itemAddCmd`, `itemUpdateCmd`, `itemDeleteCmd` and
`itemMoveCmd` (`cmd/todoist/cmd/item.go`) are embedded as functions over an
abstract client.  The `todoist` client package is not part of this
sources of this repository, so its operations are the environment: a `Client`
record supplies the result of every call, threading an opaque client state
`σ`.  Modelled from the spec: read operations (`Resolve`, `FindByContent`,
`FindOneByName`, the relation index) are lookups and do not change client
state (§4.2, §4.3), while mutating operations (`Add`, `Update`, `Move`,
`Delete`) may stage local changes and enqueue commands, and `Commit` /
`FullSync` run the sync engine (§4.4, §4.5); the state they return carries
the store and the command queue.  Each runner also records the trace of
client calls it performs, in order. -/

/-- `todoist.ID`: permanent identifiers in canonical (all-digits) syntax.
The zero value is the empty string. -/
abbrev ID := String

/-- Modelled from the spec: `todoist.NewID` parses canonical permanent-ID
syntax only — a non-empty all-digits string — and yields an error for any
other input, signalling the caller to resolve by name instead (§4.1). -/
def NewID (s : String) : Except String ID :=
  if s ≠ "" ∧ s.toList.all Char.isDigit then .ok s else .error ("invalid id: " ++ s)

/-- `todoist.Due`: the wire string and the parsed date. -/
structure Due where
  str : String
  date : GoTime
deriving DecidableEq, Repr

/-- The fields of `todoist.Item` the `item` commands read or write. -/
structure Item where
  id : ID
  content : String
  projectID : ID
  labels : List ID
  due : Due
  priority : Int
  dateAdded : GoTime
deriving DecidableEq, Repr

/-- `todoist.Project` (the fields used here). -/
structure Project where
  id : ID
  name : String
deriving DecidableEq, Repr

/-- `todoist.Label` (the fields used here). -/
structure Label where
  id : ID
  name : String
deriving DecidableEq, Repr

/-- `todoist.ItemMoveOpts`: optional new parent and project. -/
structure ItemMoveOpts where
  parentID : ID
  projectID : ID
deriving DecidableEq, Repr

/-- Modelled from the spec: a pending sync command — type, target
identifier, payload (§3).  The commands the CLI passes to `FullSync` are
always the empty list, so only the shape matters here. -/
structure Command where
  ctype : String
  target : ID
  payload : String
deriving DecidableEq, Repr

/-- One client call made by a command body. -/
inductive Event where
  | addItem (i : Item)
  | updateItem (i : Item)
  | moveItem (id : ID) (opts : ItemMoveOpts)
  | deleteItem (id : ID)
  | commit
  | fullSync (extra : List Command)
  | resolveItem (id : ID)
  | findByContent (s : String)
  | findProjectByName (s : String)
  | findLabelByName (s : String)
  | relationItems (items : List Item)
deriving DecidableEq, Repr

/-- The abstract `todoist.Client` the command bodies call, over an opaque
client state `σ` (store plus command queue).  Read operations are pure in
the state; mutating operations and the sync engine return a new state. -/
structure Client (σ : Type) where
  addItem : Item → σ → Except String ID × σ
  updateItem : Item → σ → Except String ID × σ
  moveItem : ID → ItemMoveOpts → σ → Option String × σ
  deleteItem : ID → σ → Option String × σ
  commit : σ → Option String × σ
  fullSync : List Command → σ → Option String × σ
  resolveItem : ID → σ → Option Item
  findByContent : String → σ → List Item
  findProjectByName : String → σ → Option Project
  findLabelByName : String → σ → Option Label

/-- Result of running one cobra `RunE` body: the returned error (if any),
the final client state, and the trace of client calls. -/
abbrev RunResult (σ : Type) := Except String Unit × σ × List Event

/-- The project flag of `item add`: a permanent ID is used directly; any
other string is looked up as a project name, silently leaving the zero ID
when the name is unknown. -/
def resolveProjectRef {σ : Type} (c : Client σ) (s0 : σ) (pstr : String) : ID × List Event :=
  match NewID pstr with
  | .ok pid => (pid, [])
  | .error _ =>
    match c.findProjectByName pstr s0 with
    | some p => (p.id, [Event.findProjectByName pstr])
    | none => ("", [Event.findProjectByName pstr])

/-- One step of the label-flag loop: a permanent ID is appended directly;
any other string is looked up as a label name and appended when found. -/
def labelStep {σ : Type} (c : Client σ) (s0 : σ) (acc : List ID × List Event)
    (part : String) : List ID × List Event :=
  match NewID part with
  | .ok lid => (acc.1 ++ [lid], acc.2)
  | .error _ =>
    match c.findLabelByName part s0 with
    | some lab => (acc.1 ++ [lab.id], acc.2 ++ [Event.findLabelByName part])
    | none => (acc.1, acc.2 ++ [Event.findLabelByName part])

/-- The label flag: when non-empty, split on commas and process each part,
appending resolved label IDs to `init`. -/
def collectLabels {σ : Type} (c : Client σ) (s0 : σ) (lstr : String)
    (init : List ID) : List ID × List Event :=
  if lstr.length > 0 then (lstr.splitOn ",").foldl (labelStep c s0) (init, [])
  else (init, [])

/-- Items sorted ascending by `DateAdded` with `Time.Before`, as
`sort.Slice` does in `itemAddCmd`. -/
def itemLe (a b : Item) : Prop := ¬ timeBefore b.dateAdded a.dateAdded

instance : DecidableRel itemLe := fun a b => by
  unfold itemLe; infer_instance

instance : IsTotal Item itemLe :=
  ⟨by intro a b; unfold itemLe timeBefore; omega⟩

instance : IsTrans Item itemLe :=
  ⟨by intro a b c; unfold itemLe timeBefore; omega⟩

/-- Ascending sort by `DateAdded` (`sort.Slice` with `Before`). -/
def sortByDateAdded (items : List Item) : List Item :=
  items.insertionSort itemLe

/-- The item `itemAddCmd` constructs from the arguments and flags before
calling `client.Item.Add`. -/
def addBuiltItem {σ : Type} (c : Client σ) (s0 : σ) (args : List String)
    (pstr lstr dstr : String) (prio : Int) : Item :=
  { id := "", content := " ".intercalate args,
    projectID := (resolveProjectRef c s0 pstr).1,
    labels := (collectLabels c s0 lstr []).1,
    due := if dstr.length > 0 then ⟨dstr, zeroGoTime⟩ else ⟨"", zeroGoTime⟩,
    priority := prio, dateAdded := zeroGoTime }

/-- The lookup events of the flag-processing phase of `itemAddCmd`. -/
def addFlagEvents {σ : Type} (c : Client σ) (s0 : σ) (pstr lstr : String) : List Event :=
  (resolveProjectRef c s0 pstr).2 ++ (collectLabels c s0 lstr []).2

/-- The environment of one `item add` invocation: client construction
outcome, positional arguments, and the cobra flag-read results. -/
structure AddEnv where
  newClientErr : Option String
  args : List String
  projectFlag : Except String String
  labelFlag : Except String String
  dueFlag : Except String String
  priorityFlag : Except String Int

/-- Prepend already-recorded events to the trace of a run tail. -/
def withEvents {σ : Type} (pre : List Event) (r : RunResult σ) : RunResult σ :=
  (r.1, r.2.1, pre ++ r.2.2)

/-- The tail of `itemAddCmd` once the item is built: `Add`, `Commit`,
`FullSync` with no extra commands, then re-find the added item by content
and display the one with the latest `DateAdded`. -/
def addFinish {σ : Type} (c : Client σ) (s0 : σ) (item : Item) (content : String) :
    RunResult σ :=
  match c.addItem item s0 with
  | (.error e, s1) => (.error e, s1, [Event.addItem item])
  | (.ok _, s1) =>
  match c.commit s1 with
  | (some e, s2) => (.error e, s2, [Event.addItem item, Event.commit])
  | (none, s2) =>
  match c.fullSync [] s2 with
  | (some e, s3) => (.error e, s3, [Event.addItem item, Event.commit, Event.fullSync []])
  | (none, s3) =>
  if (c.findByContent content s3).length = 0 then
    (.error "Failed to add this item. It may be failed to sync.", s3,
      [Event.addItem item, Event.commit, Event.fullSync [], Event.findByContent content])
  else
    (.ok (), s3,
      [Event.addItem item, Event.commit, Event.fullSync [], Event.findByContent content,
       Event.relationItems [(sortByDateAdded (c.findByContent content s3)).getLastD item]])

/-- `itemAddCmd.RunE`: build the item from arguments and flags, then run
the add/commit/sync/re-find tail. -/
def itemAddRun {σ : Type} (env : AddEnv) (c : Client σ) (s0 : σ) : RunResult σ :=
  match env.newClientErr with
  | some e => (.error e, s0, [])
  | none =>
  let content := " ".intercalate env.args
  match env.projectFlag with
  | .error _ => (.error "invalid project id or name", s0, [])
  | .ok pstr =>
  match env.labelFlag with
  | .error _ => (.error "invalid label id(s) or name(s)", s0, (resolveProjectRef c s0 pstr).2)
  | .ok lstr =>
  match env.dueFlag with
  | .error _ => (.error "invalid due date format", s0, addFlagEvents c s0 pstr lstr)
  | .ok dstr =>
  match env.priorityFlag with
  | .error _ => (.error "invalid priority", s0, addFlagEvents c s0 pstr lstr)
  | .ok prio =>
  withEvents (addFlagEvents c s0 pstr lstr)
    (addFinish c s0 (addBuiltItem c s0 env.args pstr lstr dstr prio) content)

/-- The item `itemUpdateCmd` builds from the resolved item, the remaining
arguments and the flags before calling `client.Item.Update`. -/
def updateBuiltItem {σ : Type} (c : Client σ) (s0 : σ) (item0 : Item)
    (args : List String) (lstr dstr : String) (prio : Int) : Item :=
  let item1 := if args.length > 1 then
      { item0 with content := " ".intercalate (args.drop 1) }
    else item0
  let item2 := { item1 with labels := (collectLabels c s0 lstr item1.labels).1 }
  let item3 := if dstr.length > 0 then { item2 with due := { item2.due with str := dstr } }
    else item2
  { item3 with priority := prio }

/-- The label-lookup events of the flag-processing phase of
`itemUpdateCmd`. -/
def updateFlagEvents {σ : Type} (c : Client σ) (s0 : σ) (item0 : Item)
    (args : List String) (lstr : String) : List Event :=
  let item1 := if args.length > 1 then
      { item0 with content := " ".intercalate (args.drop 1) }
    else item0
  (collectLabels c s0 lstr item1.labels).2

/-- The environment of one `item update` invocation. -/
structure UpdateEnv where
  newClientErr : Option String
  args : List String
  labelFlag : Except String String
  dueFlag : Except String String
  priorityFlag : Except String Int

/-- The tail of `itemUpdateCmd` once the updated item is built: `Update`,
`Commit`, `FullSync` with no extra commands, then re-resolve the id and
display the synced record. -/
def updateFinish {σ : Type} (c : Client σ) (s0 : σ) (id : ID) (item : Item) :
    RunResult σ :=
  match c.updateItem item s0 with
  | (.error e, s1) => (.error e, s1, [Event.updateItem item])
  | (.ok _, s1) =>
  match c.commit s1 with
  | (some e, s2) => (.error e, s2, [Event.updateItem item, Event.commit])
  | (none, s2) =>
  match c.fullSync [] s2 with
  | (some e, s3) => (.error e, s3, [Event.updateItem item, Event.commit, Event.fullSync []])
  | (none, s3) =>
  match c.resolveItem id s3 with
  | none => (.error "failed to add this item. it may be failed to sync", s3,
      [Event.updateItem item, Event.commit, Event.fullSync [], Event.resolveItem id])
  | some synced => (.ok (), s3,
      [Event.updateItem item, Event.commit, Event.fullSync [], Event.resolveItem id,
       Event.relationItems [synced]])

/-- `itemUpdateCmd.RunE`: parse the id argument, resolve it in the local
store (not-found error before any mutation), apply argument and flag edits,
`Update`, `Commit`, `FullSync` with no extra commands, then re-resolve the
id to display the synced record. -/
def itemUpdateRun {σ : Type} (env : UpdateEnv) (c : Client σ) (s0 : σ) : RunResult σ :=
  if env.args.length < 1 then (.error "require item id to update", s0, [])
  else
  match NewID (env.args.headD "") with
  | .error _ => (.error ("invalid id: " ++ env.args.headD ""), s0, [])
  | .ok id =>
  match env.newClientErr with
  | some e => (.error e, s0, [])
  | none =>
  match c.resolveItem id s0 with
  | none => (.error ("no such item id: " ++ id), s0, [Event.resolveItem id])
  | some item0 =>
  match env.labelFlag with
  | .error _ => (.error "invalid label id(s) or name(s)", s0, [Event.resolveItem id])
  | .ok lstr =>
  match env.dueFlag with
  | .error _ => (.error "invalid due date format", s0,
      Event.resolveItem id :: updateFlagEvents c s0 item0 env.args lstr)
  | .ok dstr =>
  match env.priorityFlag with
  | .error _ => (.error "invalid priority", s0,
      Event.resolveItem id :: updateFlagEvents c s0 item0 env.args lstr)
  | .ok prio =>
  withEvents (Event.resolveItem id :: updateFlagEvents c s0 item0 env.args lstr)
    (updateFinish c s0 id (updateBuiltItem c s0 item0 env.args lstr dstr prio))

/-- The environment of one `item move` invocation. -/
structure MoveEnv where
  newClientErr : Option String
  args : List String
  parentFlag : Except String String
  projectFlag : Except String String

/-- The tail of `itemMoveCmd` once the options are built: `Move`, `Commit`,
`FullSync` with no extra commands, then re-resolve the id. -/
def moveFinish {σ : Type} (c : Client σ) (s0 : σ) (id : ID) (opts : ItemMoveOpts) :
    RunResult σ :=
  match c.moveItem id opts s0 with
  | (some e, s1) => (.error e, s1, [Event.moveItem id opts])
  | (none, s1) =>
  match c.commit s1 with
  | (some e, s2) => (.error e, s2, [Event.moveItem id opts, Event.commit])
  | (none, s2) =>
  match c.fullSync [] s2 with
  | (some e, s3) => (.error e, s3, [Event.moveItem id opts, Event.commit, Event.fullSync []])
  | (none, s3) =>
  let ev1 := [Event.moveItem id opts, Event.commit, Event.fullSync [], Event.resolveItem id]
  match c.resolveItem id s3 with
  | none => (.error "Failed to move this item. It may be failed to sync.", s3, ev1)
  | some synced => (.ok (), s3, ev1 ++ [Event.relationItems [synced]])

/-- Prepend the initial resolve lookup to the trace of a run tail. -/
def withResolveEvent {σ : Type} (id : ID) (r : RunResult σ) : RunResult σ :=
  (r.1, r.2.1, Event.resolveItem id :: r.2.2)

/-- `itemMoveCmd.RunE`: resolve the id (not-found error first), then each
of the `parent` and `project` flags must parse as a permanent ID — with no
name fallback, and with an error even for the empty default — before `Move`
runs and the commit/sync/re-resolve tail follows.  (When a flag read itself
fails, cobra reports an error and Go skips that assignment silently.) -/
def itemMoveRun {σ : Type} (env : MoveEnv) (c : Client σ) (s0 : σ) : RunResult σ :=
  match env.newClientErr with
  | some e => (.error e, s0, [])
  | none =>
  if env.args.length < 1 then (.error "Require item ID to move", s0, [])
  else
  match NewID (env.args.headD "") with
  | .error _ => (.error ("Invalid ID: " ++ env.args.headD ""), s0, [])
  | .ok id =>
  match c.resolveItem id s0 with
  | none => (.error ("No such item id: " ++ id), s0, [Event.resolveItem id])
  | some _item =>
  let opts0 : ItemMoveOpts := ⟨"", ""⟩
  match env.parentFlag with
  | .error _ =>
    match env.projectFlag with
    | .error _ => withResolveEvent id (moveFinish c s0 id opts0)
    | .ok qstr =>
      match NewID qstr with
      | .error _ => (.error ("invalid project id: " ++ qstr), s0, [Event.resolveItem id])
      | .ok qid => withResolveEvent id (moveFinish c s0 id { opts0 with projectID := qid })
  | .ok pstr =>
    match NewID pstr with
    | .error _ => (.error ("invalid parent id: " ++ pstr), s0, [Event.resolveItem id])
    | .ok pid =>
      let opts1 := { opts0 with parentID := pid }
      match env.projectFlag with
      | .error _ => withResolveEvent id (moveFinish c s0 id opts1)
      | .ok qstr =>
        match NewID qstr with
        | .error _ => (.error ("invalid project id: " ++ qstr), s0, [Event.resolveItem id])
        | .ok qid => withResolveEvent id (moveFinish c s0 id { opts1 with projectID := qid })

/-- The environment of one `item delete` invocation: arguments and the
interactive confirmation read from standard input (`ReadString` result and
error). -/
structure DeleteEnv where
  newClientErr : Option String
  args : List String
  ans : String
  ansErr : Option String

/-- The callback `itemDeleteCmd` passes to `util.AutoCommit`: parse the
one id argument, resolve it (error before any mutation), display the item,
ask for confirmation, and only on the exact answer `y` call
`client.Item.Delete`. -/
def itemDeleteInner {σ : Type} (env : DeleteEnv) (c : Client σ) (s0 : σ) : RunResult σ :=
  if env.args.length ≠ 1 then (.error "require one item id", s0, [])
  else
  match NewID (env.args.headD "") with
  | .error e => (.error e, s0, [])
  | .ok id =>
  match c.resolveItem id s0 with
  | none => (.error ("invalid id: " ++ id), s0, [Event.resolveItem id])
  | some item =>
  let ev0 := [Event.resolveItem id, Event.relationItems [item]]
  if env.ans ≠ "y\n" ∨ env.ansErr ≠ none then
    (.error "abort", s0, ev0)
  else
    match c.deleteItem id s0 with
    | (some e, s1) => (.error e, s1, ev0 ++ [Event.deleteItem id])
    | (none, s1) => (.ok (), s1, ev0 ++ [Event.deleteItem id])

/-- Modelled from the spec: `util.AutoCommit` is not under the sources of
this repository; per the data flow of §2/§4.5 it constructs the client,
runs the callback, and only when the callback succeeds pushes the queued
commands with `Commit`, whose error it returns. -/
def autoCommit {σ : Type} (newClientErr : Option String)
    (f : Client σ → σ → RunResult σ) (c : Client σ) (s0 : σ) : RunResult σ :=
  match newClientErr with
  | some e => (.error e, s0, [])
  | none =>
  match f c s0 with
  | (.error e, s1, tr) => (.error e, s1, tr)
  | (.ok _, s1, tr) =>
    match c.commit s1 with
    | (some e, s2) => (.error e, s2, tr ++ [Event.commit])
    | (none, s2) => (.ok (), s2, tr ++ [Event.commit])

/-- `itemDeleteCmd.RunE`: run the deletion callback under `AutoCommit`; the
deliberate user-abort error is translated into a nil (success) return. -/
def itemDeleteRun {σ : Type} (env : DeleteEnv) (c : Client σ) (s0 : σ) : RunResult σ :=
  match autoCommit env.newClientErr (itemDeleteInner env) c s0 with
  | (.error e, s, tr) => (if e = "abort" then .ok () else .error e, s, tr)
  | (.ok _, s, tr) => (.ok (), s, tr)

/-! ## Trace predicates and helper lemmas -/

/-- Store-mutating or network events: the store mutations that enqueue
commands, plus the two sync-engine calls. -/
def isCoreEvent : Event → Bool
  | .addItem _ => true
  | .updateItem _ => true
  | .moveItem _ _ => true
  | .deleteItem _ => true
  | .commit => true
  | .fullSync _ => true
  | _ => false

/-- A trace with no store mutation, no enqueue and no network call. -/
def coreFree (l : List Event) : Bool := l.all (fun e => !isCoreEvent e)

/-- Sync discipline along a trace: every `fullSync` call carries no extra
commands and happens only once a `commit` has already been issued. -/
def syncOK : Bool → List Event → Bool
  | _, [] => true
  | _, Event.commit :: r => syncOK true r
  | seen, Event.fullSync l :: r => seen && l.isEmpty && syncOK seen r
  | seen, _ :: r => syncOK seen r

theorem coreFree_append {a b : List Event} :
    coreFree (a ++ b) = (coreFree a && coreFree b) := by
  simp [coreFree, List.all_append]

theorem syncOK_append_coreFree {seen : Bool} {a b : List Event} (h : coreFree a = true) :
    syncOK seen (a ++ b) = syncOK seen b := by
  induction a with
  | nil => rfl
  | cons e rest ih =>
    simp only [coreFree, List.all_cons, Bool.and_eq_true, Bool.not_eq_true'] at h
    have hr : coreFree rest = true := by simp [coreFree, h.2]
    cases e <;> simp_all [syncOK, isCoreEvent, List.cons_append]

theorem coreFree_resolveProjectRef {σ : Type} (c : Client σ) (s0 : σ) (pstr : String) :
    coreFree (resolveProjectRef c s0 pstr).2 = true := by
  unfold resolveProjectRef
  split
  · rfl
  · split <;> rfl

theorem coreFree_labelFold {σ : Type} (c : Client σ) (s0 : σ) :
    ∀ (parts : List String) (acc : List ID × List Event), coreFree acc.2 = true →
      coreFree ((parts.foldl (labelStep c s0) acc)).2 = true := by
  intro parts
  induction parts with
  | nil => intro acc h; exact h
  | cons p ps ih =>
    intro acc h
    rw [List.foldl_cons]
    apply ih
    unfold labelStep
    split
    · exact h
    · split <;> (rw [coreFree_append, h]; rfl)

theorem coreFree_collectLabels {σ : Type} (c : Client σ) (s0 : σ) (lstr : String)
    (init : List ID) : coreFree (collectLabels c s0 lstr init).2 = true := by
  unfold collectLabels
  split
  · exact coreFree_labelFold c s0 _ (init, []) rfl
  · rfl

theorem coreFree_addFlagEvents {σ : Type} (c : Client σ) (s0 : σ) (pstr lstr : String) :
    coreFree (addFlagEvents c s0 pstr lstr) = true := by
  unfold addFlagEvents
  rw [coreFree_append, coreFree_resolveProjectRef, coreFree_collectLabels]
  rfl

theorem coreFree_updateFlagEvents {σ : Type} (c : Client σ) (s0 : σ) (item0 : Item)
    (args : List String) (lstr : String) :
    coreFree (updateFlagEvents c s0 item0 args lstr) = true := by
  unfold updateFlagEvents
  exact coreFree_collectLabels c s0 lstr _

/-! ## Sorting by `DateAdded` -/

theorem itemLe_refl (a : Item) : itemLe a a := by
  unfold itemLe timeBefore
  omega

theorem mem_getLastD {α : Type} : ∀ (l : List α) (d : α), l ≠ [] → l.getLastD d ∈ l := by
  intro l
  induction l with
  | nil => intro d h; exact absurd rfl h
  | cons a as ih =>
    intro d _
    cases as with
    | nil => simp [List.getLastD]
    | cons b bs =>
      rw [List.getLastD_cons]
      exact List.mem_cons_of_mem a (ih a (by simp))

theorem pairwise_le_getLastD : ∀ (l : List Item) (d : Item), l.Pairwise itemLe →
    ∀ x ∈ l, itemLe x (l.getLastD d) := by
  intro l
  induction l with
  | nil => intro d _ x hx; simp at hx
  | cons a as ih =>
    intro d hp x hx
    cases as with
    | nil =>
      have hxa : x = a := by simpa using hx
      rw [hxa]
      exact itemLe_refl a
    | cons b bs =>
      rw [List.getLastD_cons]
      rcases List.mem_cons.mp hx with hxa | hx2
      · rw [hxa]
        exact (List.pairwise_cons.mp hp).1 _ (mem_getLastD (b :: bs) a (by simp))
      · exact ih a (List.pairwise_cons.mp hp).2 x hx2

theorem sortByDateAdded_latest (items : List Item) (d : Item) (hne : items ≠ []) :
    (sortByDateAdded items).getLastD d ∈ items ∧
    ∀ x ∈ items, itemLe x ((sortByDateAdded items).getLastD d) := by
  have hperm := List.perm_insertionSort itemLe items
  have hsorted : (sortByDateAdded items).Pairwise itemLe :=
    List.sorted_insertionSort itemLe items
  have hne2 : sortByDateAdded items ≠ [] := by
    intro he
    unfold sortByDateAdded at he
    rw [he] at hperm
    exact hne hperm.symm.eq_nil
  constructor
  · exact hperm.mem_iff.mp (mem_getLastD _ d hne2)
  · intro x hx
    exact pairwise_le_getLastD _ d hsorted x (hperm.mem_iff.mpr hx)


/-! ## Concrete clients used by the witnesses -/

/-- A demonstration item in the local store. -/
def demoItem : Item :=
  ⟨"100", "buy milk", "1", [], ⟨"", zeroGoTime⟩, 1, ⟨2020, 1, 6, 12, 30, 0, 0, 0⟩⟩

/-- A second item with the same content added a minute later. -/
def demoItem2 : Item :=
  ⟨"101", "buy milk", "1", [], ⟨"", zeroGoTime⟩, 1, ⟨2020, 1, 6, 12, 31, 0, 0, 0⟩⟩

/-- A concrete client over a step-counter state: every operation succeeds,
the store resolves id 100 to `demoItem` while untouched (state 0), and the
content lookup finds both demonstration items. -/
def demoClient : Client Nat :=
  { addItem := fun _ s => (.ok "tmp1", s + 1),
    updateItem := fun _ s => (.ok "100", s + 1),
    moveItem := fun _ _ s => (none, s + 1),
    deleteItem := fun _ s => (none, s + 1),
    commit := fun s => (none, s + 1),
    fullSync := fun _ s => (none, s + 1),
    resolveItem := fun _ s => if s = 0 then some demoItem else none,
    findByContent := fun _ _ => [demoItem, demoItem2],
    findProjectByName := fun _ _ => none,
    findLabelByName := fun _ _ => none }

/-- A concrete client whose lookups all fail: nothing resolves and no
content matches. -/
def noneClient : Client Nat :=
  { addItem := fun _ s => (.ok "tmp1", s + 1),
    updateItem := fun _ s => (.ok "100", s + 1),
    moveItem := fun _ _ s => (none, s + 1),
    deleteItem := fun _ s => (none, s + 1),
    commit := fun s => (none, s + 1),
    fullSync := fun _ s => (none, s + 1),
    resolveItem := fun _ _ => none,
    findByContent := fun _ _ => [],
    findProjectByName := fun _ _ => none,
    findLabelByName := fun _ _ => none }

/-! ## Claims about the `item` commands -/

/-- C6: an identifier that does not resolve in the local store makes
`item update`, `item move` and `item delete` return a not-found error with
the client state unchanged and no mutating, enqueuing or network call made
— the only client call in the trace is the failed lookup.  In particular a
delete of a nonexistent identifier leaves the command queue (part of the
client state) unchanged. -/
theorem c6_notfound_before_mutation :
    (∀ (σ : Type) (c : Client σ) (s0 : σ) (lf df : Except String String)
        (pf : Except String Int) (astr : String) (rest : List String) (id : ID),
      NewID astr = .ok id → c.resolveItem id s0 = none →
      itemUpdateRun ⟨none, astr :: rest, lf, df, pf⟩ c s0 =
        (.error ("no such item id: " ++ id), s0, [Event.resolveItem id])) ∧
    (∀ (σ : Type) (c : Client σ) (s0 : σ) (parf projf : Except String String)
        (astr : String) (rest : List String) (id : ID),
      NewID astr = .ok id → c.resolveItem id s0 = none →
      itemMoveRun ⟨none, astr :: rest, parf, projf⟩ c s0 =
        (.error ("No such item id: " ++ id), s0, [Event.resolveItem id])) ∧
    (∀ (σ : Type) (c : Client σ) (s0 : σ) (ans : String) (aerr : Option String)
        (astr : String) (id : ID),
      NewID astr = .ok id → c.resolveItem id s0 = none →
      itemDeleteRun ⟨none, [astr], ans, aerr⟩ c s0 =
        (.error ("invalid id: " ++ id), s0, [Event.resolveItem id])) := by
  refine ⟨?_, ?_, ?_⟩
  · intro σ c s0 lf df pf astr rest id hid hres
    simp [itemUpdateRun, hid, hres]
  · intro σ c s0 parf projf astr rest id hid hres
    simp [itemMoveRun, hid, hres]
  · intro σ c s0 ans aerr astr id hid hres
    have hne : "invalid id: " ++ id ≠ "abort" := by
      intro h
      have hl := congrArg String.length h
      rw [String.length_append] at hl
      have h12 : ("invalid id: " : String).length = 12 := rfl
      have h5 : ("abort" : String).length = 5 := rfl
      omega
    simp [itemDeleteRun, autoCommit, itemDeleteInner, hid, hres, hne]

/-- C6 (witness): the three not-found paths at a concrete client whose
store does not contain id 42. -/
theorem c6_notfound_before_mutation_witness :
    (NewID "42" = .ok "42" ∧
      (noneClient.resolveItem "42" 0 = none) ∧
      itemUpdateRun ⟨none, ["42"], .ok "", .ok "", .ok 1⟩ noneClient 0 =
        (.error "no such item id: 42", 0, [Event.resolveItem "42"]) ∧
      itemMoveRun ⟨none, ["42"], .ok "", .ok ""⟩ noneClient 0 =
        (.error "No such item id: 42", 0, [Event.resolveItem "42"]) ∧
      itemDeleteRun ⟨none, ["42"], "n\n", none⟩ noneClient 0 =
        (.error "invalid id: 42", 0, [Event.resolveItem "42"])) :=
  ⟨by decide, rfl,
    c6_notfound_before_mutation.1 Nat noneClient 0 (.ok "") (.ok "") (.ok 1) "42" [] "42"
      (by decide) rfl,
    c6_notfound_before_mutation.2.1 Nat noneClient 0 (.ok "") (.ok "") "42" [] "42"
      (by decide) rfl,
    c6_notfound_before_mutation.2.2 Nat noneClient 0 "n\n" none "42" "42"
      (by decide) rfl⟩

/-- C7: when the interactive confirmation of `item delete` is declined
(any answer other than the exact acceptance line), the command returns
success, deletes nothing and enqueues nothing: the state is unchanged and
the trace holds only the lookup and the display of the candidate item. -/
theorem c7_decline_is_noop_success :
    ∀ (σ : Type) (c : Client σ) (s0 : σ) (astr : String) (id : ID) (item : Item)
      (ans : String) (aerr : Option String),
      NewID astr = .ok id → c.resolveItem id s0 = some item → ans ≠ "y\n" →
      itemDeleteRun ⟨none, [astr], ans, aerr⟩ c s0 =
        (.ok (), s0, [Event.resolveItem id, Event.relationItems [item]]) := by
  intro σ c s0 astr id item ans aerr hid hres hans
  simp [itemDeleteRun, autoCommit, itemDeleteInner, hid, hres, hans]

/-- C7 (witness): declining with answer `n` at a concrete client. -/
theorem c7_decline_is_noop_success_witness :
    NewID "100" = .ok "100" ∧ demoClient.resolveItem "100" 0 = some demoItem ∧
    "n\n" ≠ "y\n" ∧
    itemDeleteRun ⟨none, ["100"], "n\n", none⟩ demoClient 0 =
      (.ok (), 0, [Event.resolveItem "100", Event.relationItems [demoItem]]) :=
  ⟨by decide, rfl, by decide,
    c7_decline_is_noop_success Nat demoClient 0 "100" "100" demoItem "n\n" none
      (by decide) rfl (by decide)⟩

/-- Name-resolution events (`FindOneByName` on projects or labels). -/
def isNameLookup : Event → Bool
  | .findProjectByName _ => true
  | .findLabelByName _ => true
  | _ => false

theorem nameLookupFree_moveFinish {σ : Type} (c : Client σ) (s0 : σ) (id : ID)
    (opts : ItemMoveOpts) :
    ((moveFinish c s0 id opts).2.2).all (fun e => !isNameLookup e) = true := by
  unfold moveFinish
  split
  · rfl
  · split
    · rfl
    · split
      · rfl
      · split <;> rfl

/-- C9: in `item move`, a `parent` or `project` flag value that does not
parse as a permanent identifier — including the empty-string default —
aborts the command with the corresponding "invalid parent id" / "invalid
project id" error before any `Move`, enqueue or network call (the state is
unchanged and the trace holds only the initial lookup); the empty string is
indeed rejected by the identifier syntax; and the command never falls back
to name resolution: no run of `item move` ever performs a name lookup. -/
theorem c9_move_flag_validation :
    (∀ (σ : Type) (c : Client σ) (s0 : σ) (projf : Except String String)
        (astr : String) (rest : List String) (id : ID) (item : Item) (pstr e : String),
      NewID astr = .ok id → c.resolveItem id s0 = some item → NewID pstr = .error e →
      itemMoveRun ⟨none, astr :: rest, .ok pstr, projf⟩ c s0 =
        (.error ("invalid parent id: " ++ pstr), s0, [Event.resolveItem id])) ∧
    (∀ (σ : Type) (c : Client σ) (s0 : σ) (astr : String) (rest : List String)
        (id : ID) (item : Item) (pstr pid qstr e : String),
      NewID astr = .ok id → c.resolveItem id s0 = some item → NewID pstr = .ok pid →
      NewID qstr = .error e →
      itemMoveRun ⟨none, astr :: rest, .ok pstr, .ok qstr⟩ c s0 =
        (.error ("invalid project id: " ++ qstr), s0, [Event.resolveItem id])) ∧
    (NewID "" = .error "invalid id: ") ∧
    (∀ (σ : Type) (c : Client σ) (s0 : σ) (env : MoveEnv),
      ((itemMoveRun env c s0).2.2).all (fun e => !isNameLookup e) = true) := by
  refine ⟨?_, ?_, by decide, ?_⟩
  · intro σ c s0 projf astr rest id item pstr e hid hres hp
    simp [itemMoveRun, hid, hres, hp]
  · intro σ c s0 astr rest id item pstr pid qstr e hid hres hp hq
    simp [itemMoveRun, hid, hres, hp, hq]
  · intro σ c s0 env
    unfold itemMoveRun
    repeat' split
    all_goals first
      | rfl
      | (simp only [withResolveEvent, List.all_cons, isNameLookup, Bool.not_false,
          Bool.true_and]
         simpa using nameLookupFree_moveFinish c s0 _ _)

/-- C9 (witness): the empty default and a non-numeric project flag at a
concrete client. -/
theorem c9_move_flag_validation_witness :
    NewID "100" = .ok "100" ∧ demoClient.resolveItem "100" 0 = some demoItem ∧
    NewID "" = .error "invalid id: " ∧ NewID "7" = .ok "7" ∧
    NewID "inbox" = .error "invalid id: inbox" ∧
    itemMoveRun ⟨none, ["100"], .ok "", .ok "5"⟩ demoClient 0 =
      (.error "invalid parent id: ", 0, [Event.resolveItem "100"]) ∧
    itemMoveRun ⟨none, ["100"], .ok "7", .ok "inbox"⟩ demoClient 0 =
      (.error "invalid project id: inbox", 0, [Event.resolveItem "100"]) :=
  ⟨by decide, rfl, by decide, by decide, by decide,
    c9_move_flag_validation.1 Nat demoClient 0 (.ok "5") "100" [] "100" demoItem ""
      "invalid id: " (by decide) rfl (by decide),
    c9_move_flag_validation.2.1 Nat demoClient 0 "100" [] "100" demoItem "7" "7" "inbox"
      "invalid id: inbox" (by decide) rfl (by decide) (by decide)⟩

/-- C3: when `Commit` and `FullSync` both succeed but the post-sync lookup
of the affected entity comes back empty (`FindByContent` empty for add,
`Resolve` absent for update/move), each command returns the "may be failed
to sync" error instead of reporting success. -/
theorem c3_postsync_lookup_failure :
    (∀ (σ : Type) (c : Client σ) (s0 s1 s2 s3 : σ) (args : List String)
        (pstr lstr dstr : String) (prio : Int) (x : ID),
      c.addItem (addBuiltItem c s0 args pstr lstr dstr prio) s0 = (.ok x, s1) →
      c.commit s1 = (none, s2) → c.fullSync [] s2 = (none, s3) →
      c.findByContent (" ".intercalate args) s3 = [] →
      itemAddRun ⟨none, args, .ok pstr, .ok lstr, .ok dstr, .ok prio⟩ c s0 =
        (.error "Failed to add this item. It may be failed to sync.", s3,
          addFlagEvents c s0 pstr lstr ++
            [Event.addItem (addBuiltItem c s0 args pstr lstr dstr prio), Event.commit,
             Event.fullSync [], Event.findByContent (" ".intercalate args)])) ∧
    (∀ (σ : Type) (c : Client σ) (s0 s1 s2 s3 : σ) (astr : String) (rest : List String)
        (id : ID) (item0 : Item) (lstr dstr : String) (prio : Int) (x : ID),
      NewID astr = .ok id → c.resolveItem id s0 = some item0 →
      c.updateItem (updateBuiltItem c s0 item0 (astr :: rest) lstr dstr prio) s0 = (.ok x, s1) →
      c.commit s1 = (none, s2) → c.fullSync [] s2 = (none, s3) →
      c.resolveItem id s3 = none →
      itemUpdateRun ⟨none, astr :: rest, .ok lstr, .ok dstr, .ok prio⟩ c s0 =
        (.error "failed to add this item. it may be failed to sync", s3,
          Event.resolveItem id :: updateFlagEvents c s0 item0 (astr :: rest) lstr ++
            [Event.updateItem (updateBuiltItem c s0 item0 (astr :: rest) lstr dstr prio),
             Event.commit, Event.fullSync [], Event.resolveItem id])) ∧
    (∀ (σ : Type) (c : Client σ) (s0 s1 s2 s3 : σ) (astr : String) (rest : List String)
        (id : ID) (item0 : Item) (pstr pid qstr qid : String),
      NewID astr = .ok id → c.resolveItem id s0 = some item0 →
      NewID pstr = .ok pid → NewID qstr = .ok qid →
      c.moveItem id ⟨pid, qid⟩ s0 = (none, s1) →
      c.commit s1 = (none, s2) → c.fullSync [] s2 = (none, s3) →
      c.resolveItem id s3 = none →
      itemMoveRun ⟨none, astr :: rest, .ok pstr, .ok qstr⟩ c s0 =
        (.error "Failed to move this item. It may be failed to sync.", s3,
          [Event.resolveItem id, Event.moveItem id ⟨pid, qid⟩, Event.commit,
           Event.fullSync [], Event.resolveItem id])) := by
  refine ⟨?_, ?_, ?_⟩
  · intro σ c s0 s1 s2 s3 args pstr lstr dstr prio x hadd hcommit hsync hfind
    simp [itemAddRun, withEvents, addFinish, hadd, hcommit, hsync, hfind]
  · intro σ c s0 s1 s2 s3 astr rest id item0 lstr dstr prio x hid hres hupd hcommit
      hsync hres2
    simp [itemUpdateRun, withEvents, updateFinish, hid, hres, hupd, hcommit, hsync, hres2]
  · intro σ c s0 s1 s2 s3 astr rest id item0 pstr pid qstr qid hid hres hp hq hmove
      hcommit hsync hres2
    simp [itemMoveRun, withResolveEvent, moveFinish, hid, hres, hp, hq, hmove, hcommit,
      hsync, hres2]

/-- C3 (witness): the three post-sync-lookup failures at concrete clients
whose lookups fail after the sync has advanced the state. -/
theorem c3_postsync_lookup_failure_witness :
    (itemAddRun ⟨none, ["buy", "milk"], .ok "1", .ok "", .ok "", .ok 1⟩ noneClient 0 =
      (.error "Failed to add this item. It may be failed to sync.", 3,
        addFlagEvents noneClient 0 "1" "" ++
          [Event.addItem (addBuiltItem noneClient 0 ["buy", "milk"] "1" "" "" 1),
           Event.commit, Event.fullSync [],
           Event.findByContent (" ".intercalate ["buy", "milk"])])) ∧
    (itemUpdateRun ⟨none, ["100"], .ok "", .ok "", .ok 1⟩ demoClient 0 =
      (.error "failed to add this item. it may be failed to sync", 3,
        Event.resolveItem "100" :: updateFlagEvents demoClient 0 demoItem ["100"] "" ++
          [Event.updateItem (updateBuiltItem demoClient 0 demoItem ["100"] "" "" 1),
           Event.commit, Event.fullSync [], Event.resolveItem "100"])) ∧
    (itemMoveRun ⟨none, ["100"], .ok "7", .ok "5"⟩ demoClient 0 =
      (.error "Failed to move this item. It may be failed to sync.", 3,
        [Event.resolveItem "100", Event.moveItem "100" ⟨"7", "5"⟩, Event.commit,
         Event.fullSync [], Event.resolveItem "100"])) :=
  ⟨c3_postsync_lookup_failure.1 Nat noneClient 0 1 2 3 ["buy", "milk"] "1" "" "" 1 "tmp1"
      rfl rfl rfl rfl,
    c3_postsync_lookup_failure.2.1 Nat demoClient 0 1 2 3 "100" [] "100" demoItem "" "" 1
      "100" (by decide) rfl rfl rfl rfl rfl,
    c3_postsync_lookup_failure.2.2 Nat demoClient 0 1 2 3 "100" [] "100" demoItem "7" "7"
      "5" "5" (by decide) rfl (by decide) (by decide) rfl rfl rfl rfl⟩

/-- C10: when the post-sync content lookup of `item add` returns several
items, the command succeeds and displays the last element of the list
sorted ascending by `DateAdded` — an item of the result set that no other
result was added after (a latest item), not simply the first match. -/
theorem c10_add_picks_latest :
    ∀ (σ : Type) (c : Client σ) (s0 s1 s2 s3 : σ) (args : List String)
      (pstr lstr dstr : String) (prio : Int) (x : ID) (items : List Item),
      c.addItem (addBuiltItem c s0 args pstr lstr dstr prio) s0 = (.ok x, s1) →
      c.commit s1 = (none, s2) → c.fullSync [] s2 = (none, s3) →
      c.findByContent (" ".intercalate args) s3 = items →
      1 < items.length →
      itemAddRun ⟨none, args, .ok pstr, .ok lstr, .ok dstr, .ok prio⟩ c s0 =
        (.ok (), s3,
          addFlagEvents c s0 pstr lstr ++
            [Event.addItem (addBuiltItem c s0 args pstr lstr dstr prio), Event.commit,
             Event.fullSync [], Event.findByContent (" ".intercalate args),
             Event.relationItems
               [(sortByDateAdded items).getLastD (addBuiltItem c s0 args pstr lstr dstr prio)]]) ∧
      (sortByDateAdded items).getLastD (addBuiltItem c s0 args pstr lstr dstr prio) ∈ items ∧
      ∀ y ∈ items,
        itemLe y ((sortByDateAdded items).getLastD (addBuiltItem c s0 args pstr lstr dstr prio)) := by
  intro σ c s0 s1 s2 s3 args pstr lstr dstr prio x items hadd hcommit hsync hfind hlen
  have hne : items ≠ [] := by
    intro he
    rw [he] at hlen
    simp at hlen
  have hlatest := sortByDateAdded_latest items (addBuiltItem c s0 args pstr lstr dstr prio) hne
  have hlen0 : ¬(items.length = 0) := by omega
  refine ⟨?_, hlatest.1, hlatest.2⟩
  simp [itemAddRun, withEvents, addFinish, hadd, hcommit, hsync, hfind, hlen0]

/-- C10 (witness): two items with the same content; the one added later is
displayed. -/
theorem c10_add_picks_latest_witness :
    (itemAddRun ⟨none, ["buy", "milk"], .ok "1", .ok "", .ok "", .ok 1⟩ demoClient 0 =
      (.ok (), 3,
        addFlagEvents demoClient 0 "1" "" ++
          [Event.addItem (addBuiltItem demoClient 0 ["buy", "milk"] "1" "" "" 1),
           Event.commit, Event.fullSync [],
           Event.findByContent (" ".intercalate ["buy", "milk"]),
           Event.relationItems
             [(sortByDateAdded [demoItem, demoItem2]).getLastD
               (addBuiltItem demoClient 0 ["buy", "milk"] "1" "" "" 1)]]) ∧
      (sortByDateAdded [demoItem, demoItem2]).getLastD
          (addBuiltItem demoClient 0 ["buy", "milk"] "1" "" "" 1) ∈ [demoItem, demoItem2] ∧
      ∀ y ∈ [demoItem, demoItem2],
        itemLe y ((sortByDateAdded [demoItem, demoItem2]).getLastD
          (addBuiltItem demoClient 0 ["buy", "milk"] "1" "" "" 1))) ∧
    (sortByDateAdded [demoItem, demoItem2]).getLastD
        (addBuiltItem demoClient 0 ["buy", "milk"] "1" "" "" 1) = demoItem2 :=
  ⟨c10_add_picks_latest Nat demoClient 0 1 2 3 ["buy", "milk"] "1" "" "" 1 "tmp1"
      [demoItem, demoItem2] rfl rfl rfl rfl (by decide), by decide⟩

theorem syncOK_of_coreFree {seen : Bool} {l : List Event} (h : coreFree l = true) :
    syncOK seen l = true := by
  have h2 := @syncOK_append_coreFree seen l [] h
  simpa using h2

theorem syncOK_cons_resolve {seen : Bool} (id : ID) (l : List Event) :
    syncOK seen (Event.resolveItem id :: l) = syncOK seen l := rfl

theorem syncOK_moveFinish {σ : Type} (c : Client σ) (s0 : σ) (id : ID)
    (opts : ItemMoveOpts) : syncOK false (moveFinish c s0 id opts).2.2 = true := by
  unfold moveFinish
  repeat' split
  all_goals rfl

theorem syncOK_addFinish {σ : Type} (c : Client σ) (s0 : σ) (item : Item)
    (content : String) : syncOK false (addFinish c s0 item content).2.2 = true := by
  unfold addFinish
  repeat' split
  all_goals rfl

theorem syncOK_updateFinish {σ : Type} (c : Client σ) (s0 : σ) (id : ID) (item : Item) :
    syncOK false (updateFinish c s0 id item).2.2 = true := by
  unfold updateFinish
  repeat' split
  all_goals rfl

theorem syncOK_itemAddRun {σ : Type} (env : AddEnv) (c : Client σ) (s0 : σ) :
    syncOK false (itemAddRun env c s0).2.2 = true := by
  unfold itemAddRun
  repeat' split
  all_goals first
    | rfl
    | exact syncOK_of_coreFree (coreFree_resolveProjectRef c s0 _)
    | exact syncOK_of_coreFree (coreFree_addFlagEvents c s0 _ _)
    | (simp only [withEvents]
       rw [syncOK_append_coreFree (coreFree_addFlagEvents c s0 _ _)]
       exact syncOK_addFinish c s0 _ _)

theorem syncOK_itemUpdateRun {σ : Type} (env : UpdateEnv) (c : Client σ) (s0 : σ) :
    syncOK false (itemUpdateRun env c s0).2.2 = true := by
  unfold itemUpdateRun
  repeat' split
  all_goals first
    | rfl
    | (simp only [syncOK_cons_resolve]
       exact syncOK_of_coreFree (coreFree_updateFlagEvents c s0 _ _ _))
    | (simp only [withEvents, List.cons_append, syncOK_cons_resolve]
       rw [syncOK_append_coreFree (coreFree_updateFlagEvents c s0 _ _ _)]
       exact syncOK_updateFinish c s0 _ _)

theorem syncOK_itemMoveRun {σ : Type} (env : MoveEnv) (c : Client σ) (s0 : σ) :
    syncOK false (itemMoveRun env c s0).2.2 = true := by
  unfold itemMoveRun
  repeat' split
  all_goals first
    | rfl
    | (simp only [withResolveEvent, syncOK_cons_resolve]
       exact syncOK_moveFinish c s0 _ _)

theorem coreFree_cons_resolve (id : ID) (l : List Event) :
    coreFree (Event.resolveItem id :: l) = coreFree l := by
  simp [coreFree, isCoreEvent]

/-- C2: in every run of `item add`, `item update` and `item move` that
reaches the network phase (the store mutation succeeds), the trace is
exactly lookup-only events around the contiguous sequence mutation →
`Commit` → `FullSync []` → re-lookup of the entity; and in every run of
these commands whatsoever, each `FullSync` call carries no extra commands
and only happens after a `Commit` has been issued. -/
theorem c2_commit_before_fullsync :
    (∀ (σ : Type) (c : Client σ) (s0 s1 s2 s3 : σ) (args : List String)
        (pstr lstr dstr : String) (prio : Int) (x : ID),
      c.addItem (addBuiltItem c s0 args pstr lstr dstr prio) s0 = (.ok x, s1) →
      c.commit s1 = (none, s2) → c.fullSync [] s2 = (none, s3) →
      ∃ pre post,
        (itemAddRun ⟨none, args, .ok pstr, .ok lstr, .ok dstr, .ok prio⟩ c s0).2.2 =
          pre ++ [Event.addItem (addBuiltItem c s0 args pstr lstr dstr prio),
                  Event.commit, Event.fullSync [],
                  Event.findByContent (" ".intercalate args)] ++ post ∧
        coreFree pre = true ∧ coreFree post = true) ∧
    (∀ (σ : Type) (c : Client σ) (s0 s1 s2 s3 : σ) (astr : String) (rest : List String)
        (id : ID) (item0 : Item) (lstr dstr : String) (prio : Int) (x : ID),
      NewID astr = .ok id → c.resolveItem id s0 = some item0 →
      c.updateItem (updateBuiltItem c s0 item0 (astr :: rest) lstr dstr prio) s0 =
        (.ok x, s1) →
      c.commit s1 = (none, s2) → c.fullSync [] s2 = (none, s3) →
      ∃ pre post,
        (itemUpdateRun ⟨none, astr :: rest, .ok lstr, .ok dstr, .ok prio⟩ c s0).2.2 =
          pre ++ [Event.updateItem (updateBuiltItem c s0 item0 (astr :: rest) lstr dstr prio),
                  Event.commit, Event.fullSync [], Event.resolveItem id] ++ post ∧
        coreFree pre = true ∧ coreFree post = true) ∧
    (∀ (σ : Type) (c : Client σ) (s0 s1 s2 s3 : σ) (astr : String) (rest : List String)
        (id : ID) (item0 : Item) (pstr pid qstr qid : String),
      NewID astr = .ok id → c.resolveItem id s0 = some item0 →
      NewID pstr = .ok pid → NewID qstr = .ok qid →
      c.moveItem id ⟨pid, qid⟩ s0 = (none, s1) →
      c.commit s1 = (none, s2) → c.fullSync [] s2 = (none, s3) →
      ∃ pre post,
        (itemMoveRun ⟨none, astr :: rest, .ok pstr, .ok qstr⟩ c s0).2.2 =
          pre ++ [Event.moveItem id ⟨pid, qid⟩, Event.commit, Event.fullSync [],
                  Event.resolveItem id] ++ post ∧
        coreFree pre = true ∧ coreFree post = true) ∧
    (∀ (σ : Type) (c : Client σ) (s0 : σ) (env : AddEnv),
      syncOK false (itemAddRun env c s0).2.2 = true) ∧
    (∀ (σ : Type) (c : Client σ) (s0 : σ) (env : UpdateEnv),
      syncOK false (itemUpdateRun env c s0).2.2 = true) ∧
    (∀ (σ : Type) (c : Client σ) (s0 : σ) (env : MoveEnv),
      syncOK false (itemMoveRun env c s0).2.2 = true) := by
  refine ⟨?_, ?_, ?_, fun σ c s0 env => syncOK_itemAddRun env c s0,
    fun σ c s0 env => syncOK_itemUpdateRun env c s0,
    fun σ c s0 env => syncOK_itemMoveRun env c s0⟩
  · intro σ c s0 s1 s2 s3 args pstr lstr dstr prio x hadd hcommit hsync
    by_cases h0 : (c.findByContent (" ".intercalate args) s3).length = 0
    · refine ⟨addFlagEvents c s0 pstr lstr, [], ?_, coreFree_addFlagEvents c s0 _ _, rfl⟩
      simp [itemAddRun, withEvents, addFinish, hadd, hcommit, hsync, h0]
    · refine ⟨addFlagEvents c s0 pstr lstr,
        [Event.relationItems
          [(sortByDateAdded (c.findByContent (" ".intercalate args) s3)).getLastD
            (addBuiltItem c s0 args pstr lstr dstr prio)]],
        ?_, coreFree_addFlagEvents c s0 _ _, rfl⟩
      simp [itemAddRun, withEvents, addFinish, hadd, hcommit, hsync, h0]
  · intro σ c s0 s1 s2 s3 astr rest id item0 lstr dstr prio x hid hres hupd hcommit hsync
    rcases h2 : c.resolveItem id s3 with _ | synced
    · refine ⟨Event.resolveItem id :: updateFlagEvents c s0 item0 (astr :: rest) lstr, [],
        ?_, ?_, rfl⟩
      · simp [itemUpdateRun, withEvents, updateFinish, hid, hres, hupd, hcommit, hsync, h2]
      · rw [coreFree_cons_resolve]
        exact coreFree_updateFlagEvents c s0 _ _ _
    · refine ⟨Event.resolveItem id :: updateFlagEvents c s0 item0 (astr :: rest) lstr,
        [Event.relationItems [synced]], ?_, ?_, rfl⟩
      · simp [itemUpdateRun, withEvents, updateFinish, hid, hres, hupd, hcommit, hsync, h2]
      · rw [coreFree_cons_resolve]
        exact coreFree_updateFlagEvents c s0 _ _ _
  · intro σ c s0 s1 s2 s3 astr rest id item0 pstr pid qstr qid hid hres hp hq hmove
      hcommit hsync
    rcases h2 : c.resolveItem id s3 with _ | synced
    · refine ⟨[Event.resolveItem id], [], ?_, rfl, rfl⟩
      simp [itemMoveRun, withResolveEvent, moveFinish, hid, hres, hp, hq, hmove, hcommit,
        hsync, h2]
    · refine ⟨[Event.resolveItem id], [Event.relationItems [synced]], ?_, rfl, rfl⟩
      simp [itemMoveRun, withResolveEvent, moveFinish, hid, hres, hp, hq, hmove, hcommit,
        hsync, h2]

/-- C2 (witness): the three network-phase traces at a concrete client. -/
theorem c2_commit_before_fullsync_witness :
    (demoClient.addItem (addBuiltItem demoClient 0 ["buy", "milk"] "1" "" "" 1) 0 =
        (.ok "tmp1", 1) ∧
      demoClient.commit 1 = (none, 2) ∧ demoClient.fullSync [] 2 = (none, 3) ∧
      ∃ pre post,
        (itemAddRun ⟨none, ["buy", "milk"], .ok "1", .ok "", .ok "", .ok 1⟩
            demoClient 0).2.2 =
          pre ++ [Event.addItem (addBuiltItem demoClient 0 ["buy", "milk"] "1" "" "" 1),
                  Event.commit, Event.fullSync [],
                  Event.findByContent (" ".intercalate ["buy", "milk"])] ++ post ∧
        coreFree pre = true ∧ coreFree post = true) ∧
    (∃ pre post,
      (itemUpdateRun ⟨none, ["100"], .ok "", .ok "", .ok 1⟩ demoClient 0).2.2 =
        pre ++ [Event.updateItem (updateBuiltItem demoClient 0 demoItem ["100"] "" "" 1),
                Event.commit, Event.fullSync [], Event.resolveItem "100"] ++ post ∧
      coreFree pre = true ∧ coreFree post = true) ∧
    (∃ pre post,
      (itemMoveRun ⟨none, ["100"], .ok "7", .ok "5"⟩ demoClient 0).2.2 =
        pre ++ [Event.moveItem "100" ⟨"7", "5"⟩, Event.commit, Event.fullSync [],
                Event.resolveItem "100"] ++ post ∧
      coreFree pre = true ∧ coreFree post = true) :=
  ⟨⟨rfl, rfl, rfl,
      c2_commit_before_fullsync.1 Nat demoClient 0 1 2 3 ["buy", "milk"] "1" "" "" 1 "tmp1"
        rfl rfl rfl⟩,
    c2_commit_before_fullsync.2.1 Nat demoClient 0 1 2 3 "100" [] "100" demoItem "" "" 1
      "100" (by decide) rfl rfl rfl rfl,
    c2_commit_before_fullsync.2.2.1 Nat demoClient 0 1 2 3 "100" [] "100" demoItem "7" "7"
      "5" "5" (by decide) rfl (by decide) (by decide) rfl rfl rfl⟩

end Todoist
